import Mathlib

set_option linter.unusedSectionVars false

/-!
Verification of the DirectedGraph repository: a generic in-memory labeled
directed multigraph container (src/directed_graph.rs and
src/labeled_multidigraph.rs).

Modelling conventions.
A Rust HashMap is embedded as an association list without duplicate keys
(mapGet finds the entry with an equal key, mapInsert replaces or appends,
List.length models HashMap len).  A Rust HashSet of edge indexes is a
duplicate-free list (setInsert inserts only when absent).  A panic is
modelled as the none outcome of an Option-valued operation; for add_edge,
which mutates, the operation returns the result paired with the state at the
point the call finished or aborted.  Rc sharing is irrelevant to the
observable behaviour and values are compared structurally, exactly as the
derived Eq and Hash instances compare them.
-/

/-- Association-list model of HashMap lookup: the value stored at an equal
key, if any. -/
def mapGet {α β : Type} [DecidableEq α] (m : List (α × β)) (k : α) : Option β :=
  match m with
  | [] => none
  | (k0, v0) :: rest => if k = k0 then some v0 else mapGet rest k

/-- Association-list model of HashMap insert: replaces the value at an equal
key, or appends a fresh entry. -/
def mapInsert {α β : Type} [DecidableEq α] (m : List (α × β)) (k : α) (v : β) :
    List (α × β) :=
  match m with
  | [] => [(k, v)]
  | (k0, v0) :: rest =>
    if k = k0 then (k, v) :: rest else (k0, v0) :: mapInsert rest k v

/-- Model of HashSet insert on a duplicate-free list: a no-op when the
element is already present. -/
def setInsert {α : Type} [DecidableEq α] (s : List α) (x : α) : List α :=
  if x ∈ s then s else x :: s

/-- Model of a Rust iterator that unwraps an Option for every element: the
whole traversal aborts (none) as soon as one unwrap fails. -/
def mapUnwrap {α : Type} (f : Nat → Option α) : List Nat → Option (List α)
  | [] => some []
  | x :: xs =>
    match f x, mapUnwrap f xs with
    | some a, some rest => some (a :: rest)
    | _, _ => none

theorem mapGet_insert {α β : Type} [DecidableEq α] (m : List (α × β)) (k q : α)
    (v : β) :
    mapGet (mapInsert m k v) q = if q = k then some v else mapGet m q := by
  induction m with
  | nil =>
    by_cases hq : q = k <;> simp [mapGet, mapInsert, hq]
  | cons p rest ih =>
    obtain ⟨k0, v0⟩ := p
    by_cases hk : k = k0
    · subst hk
      by_cases hq : q = k <;> simp [mapGet, mapInsert, hq]
    · by_cases hq : q = k0
      · subst hq
        have hqk : ¬q = k := fun h => hk h.symm
        simp [mapGet, mapInsert, hk, hqk]
      · by_cases hq2 : q = k
        · subst hq2
          simp [mapGet, mapInsert, hk, hq, ih]
        · simp [mapGet, mapInsert, hk, hq, hq2, ih]

theorem mapGet_isSome_iff_mem {α β : Type} [DecidableEq α] (m : List (α × β))
    (k : α) : (mapGet m k).isSome ↔ k ∈ m.map Prod.fst := by
  induction m with
  | nil => simp [mapGet]
  | cons p rest ih =>
    obtain ⟨k0, v0⟩ := p
    by_cases hk : k = k0 <;> simp [mapGet, hk, ih]

theorem mapGet_eq_none_iff {α β : Type} [DecidableEq α] (m : List (α × β))
    (k : α) : mapGet m k = none ↔ k ∉ m.map Prod.fst := by
  rw [← mapGet_isSome_iff_mem, ← Option.not_isSome_iff_eq_none]

theorem mapInsert_length_of_none {α β : Type} [DecidableEq α]
    (m : List (α × β)) (k : α) (v : β) (h : mapGet m k = none) :
    (mapInsert m k v).length = m.length + 1 := by
  induction m with
  | nil => simp [mapInsert]
  | cons p rest ih =>
    obtain ⟨k0, v0⟩ := p
    by_cases hk : k = k0
    · simp [mapGet, hk] at h
    · simp [mapGet, hk] at h
      simp [mapInsert, hk, ih h]

theorem mapInsert_length_of_some {α β : Type} [DecidableEq α]
    (m : List (α × β)) (k : α) (v w : β) (h : mapGet m k = some w) :
    (mapInsert m k v).length = m.length := by
  induction m with
  | nil => simp [mapGet] at h
  | cons p rest ih =>
    obtain ⟨k0, v0⟩ := p
    by_cases hk : k = k0
    · simp [mapInsert, hk]
    · simp [mapGet, hk] at h
      simp [mapInsert, hk, ih h]

theorem mapInsert_keys_of_none {α β : Type} [DecidableEq α]
    (m : List (α × β)) (k : α) (v : β) (h : mapGet m k = none) :
    (mapInsert m k v).map Prod.fst = m.map Prod.fst ++ [k] := by
  induction m with
  | nil => simp [mapInsert]
  | cons p rest ih =>
    obtain ⟨k0, v0⟩ := p
    by_cases hk : k = k0
    · simp [mapGet, hk] at h
    · simp [mapGet, hk] at h
      simp [mapInsert, hk, ih h]

theorem mapInsert_keys_of_some {α β : Type} [DecidableEq α]
    (m : List (α × β)) (k : α) (v w : β) (h : mapGet m k = some w) :
    (mapInsert m k v).map Prod.fst = m.map Prod.fst := by
  induction m with
  | nil => simp [mapGet] at h
  | cons p rest ih =>
    obtain ⟨k0, v0⟩ := p
    by_cases hk : k = k0
    · simp [mapInsert, hk]
    · simp [mapGet, hk] at h
      simp [mapInsert, hk, ih h]

theorem mapInsert_keys_nodup {α β : Type} [DecidableEq α] (m : List (α × β))
    (k : α) (v : β) (h : (m.map Prod.fst).Nodup) :
    ((mapInsert m k v).map Prod.fst).Nodup := by
  cases hg : mapGet m k with
  | none =>
    rw [mapInsert_keys_of_none m k v hg]
    have hk : k ∉ m.map Prod.fst := (mapGet_eq_none_iff m k).mp hg
    simp [List.nodup_append, h, hk]
  | some w =>
    rw [mapInsert_keys_of_some m k v w hg]
    exact h

theorem mem_setInsert {α : Type} [DecidableEq α] (s : List α) (x y : α) :
    y ∈ setInsert s x ↔ y = x ∨ y ∈ s := by
  by_cases h : x ∈ s
  · simp [setInsert, h]
    exact fun hy => hy ▸ h
  · simp [setInsert, h]

theorem setInsert_nodup {α : Type} [DecidableEq α] (s : List α) (x : α)
    (h : s.Nodup) : (setInsert s x).Nodup := by
  by_cases hx : x ∈ s <;> simp [setInsert, hx, h]

theorem mapUnwrap_isSome {α : Type} (f : Nat → Option α) (l : List Nat)
    (h : ∀ x ∈ l, (f x).isSome) : (mapUnwrap f l).isSome := by
  induction l with
  | nil => simp [mapUnwrap]
  | cons x xs ih =>
    have hx : (f x).isSome := h x (List.mem_cons_self x xs)
    have hxs : (mapUnwrap f xs).isSome := ih fun y hy => h y (List.mem_cons_of_mem x hy)
    obtain ⟨a, ha⟩ := Option.isSome_iff_exists.mp hx
    obtain ⟨rest, hrest⟩ := Option.isSome_iff_exists.mp hxs
    simp [mapUnwrap, ha, hrest]

theorem mapUnwrap_count (f : Nat → Option Nat) (l : List Nat) (r : List Nat)
    (h : mapUnwrap f l = some r) (w : Nat) :
    r.count w = l.countP (fun x => f x == some w) := by
  induction l generalizing r with
  | nil =>
    simp [mapUnwrap] at h
    subst h
    simp
  | cons x xs ih =>
    cases hfx : f x with
    | none => simp [mapUnwrap, hfx] at h
    | some a =>
      cases hxs : mapUnwrap f xs with
      | none => simp [mapUnwrap, hfx, hxs] at h
      | some rest =>
        simp [mapUnwrap, hfx, hxs] at h
        subst h
        by_cases haw : a = w
        · subst haw
          simp [List.count_cons, List.countP_cons, ih rest hxs, hfx]
        · simp [List.count_cons, List.countP_cons, ih rest hxs, hfx, haw]

namespace LabeledMultidigraph

/-- Vertex from src/labeled_multidigraph.rs: carries exactly one label. -/
structure Vertex (V : Type) where
  label : V
deriving DecidableEq

/-- Edge from src/labeled_multidigraph.rs: source index, label, target
index. -/
structure Edge (E : Type) where
  source : Nat
  label : E
  target : Nat
deriving DecidableEq

/-- State of LabeledMultidigraph: the six HashMap fields, with HashMaps as
association lists and HashSets as duplicate-free lists. -/
structure Graph (V E : Type) where
  vertex_to_index : List (Vertex V × Nat)
  index_to_vertex : List (Nat × Vertex V)
  edge_to_index : List (Edge E × Nat)
  index_to_edge : List (Nat × Edge E)
  edges_from : List (Nat × List Nat)
  edges_between : List ((Nat × Nat) × List Nat)
deriving DecidableEq

variable {V E : Type} [DecidableEq V] [DecidableEq E]

/-- LabeledMultidigraph::new. -/
def new : Graph V E :=
  { vertex_to_index := []
    index_to_vertex := []
    edge_to_index := []
    index_to_edge := []
    edges_from := []
    edges_between := [] }

/-- LabeledMultidigraph::add_vertex: returns the index and the updated
state. -/
def add_vertex (g : Graph V E) (vertex : Vertex V) : Nat × Graph V E :=
  match mapGet g.vertex_to_index vertex with
  | some vertex_index => (vertex_index, g)
  | none =>
    let vertex_index := g.vertex_to_index.length
    (vertex_index,
      { g with
        vertex_to_index := mapInsert g.vertex_to_index vertex vertex_index
        index_to_vertex := mapInsert g.index_to_vertex vertex_index vertex })

/-- LabeledMultidigraph::contains_vertex. -/
def contains_vertex (g : Graph V E) (vertex : Vertex V) : Option Nat :=
  mapGet g.vertex_to_index vertex

/-- LabeledMultidigraph::get_vertex; none models the expect panic on an
unknown index. -/
def get_vertex (g : Graph V E) (vertex_index : Nat) : Option (Vertex V) :=
  mapGet g.index_to_vertex vertex_index

/-- LabeledMultidigraph::get_neighbors; none models the bounds-check panic
and the unwrap inside the iterator. -/
def get_neighbors (g : Graph V E) (vertex_index : Nat) : Option (List Nat) :=
  if (mapGet g.index_to_vertex vertex_index).isNone then none
  else
    match mapGet g.edges_from vertex_index with
    | some ef =>
      mapUnwrap (fun edge_index => (mapGet g.index_to_edge edge_index).map Edge.target) ef
    | none => some []

/-- LabeledMultidigraph::get_edges_from; none models the bounds-check
panic. -/
def get_edges_from (g : Graph V E) (vertex_index : Nat) : Option (List Nat) :=
  if (mapGet g.index_to_vertex vertex_index).isNone then none
  else
    match mapGet g.edges_from vertex_index with
    | some ef => some ef
    | none => some []

/-- LabeledMultidigraph::add_edge: the first component is none when the call
panics on an out-of-bounds endpoint, and the second component is the state
at the moment the call returned or panicked (both bounds checks precede any
mutation in the source). -/
def add_edge (g : Graph V E) (edge : Edge E) : Option Nat × Graph V E :=
  let edge_source := edge.source
  let edge_target := edge.target
  if (mapGet g.index_to_vertex edge_source).isNone then (none, g)
  else if (mapGet g.index_to_vertex edge_target).isNone then (none, g)
  else
    match mapGet g.edge_to_index edge with
    | some edge_index => (some edge_index, g)
    | none =>
      let edge_index := g.edge_to_index.length
      (some edge_index,
        { g with
          edge_to_index := mapInsert g.edge_to_index edge edge_index
          index_to_edge := mapInsert g.index_to_edge edge_index edge
          edges_from :=
            match mapGet g.edges_from edge_source with
            | some ef => mapInsert g.edges_from edge_source (setInsert ef edge_index)
            | none => mapInsert g.edges_from edge_source [edge_index]
          edges_between :=
            match mapGet g.edges_between (edge_source, edge_target) with
            | some eb =>
              mapInsert g.edges_between (edge_source, edge_target) (setInsert eb edge_index)
            | none => mapInsert g.edges_between (edge_source, edge_target) [edge_index] })

/-- LabeledMultidigraph::contains_edge. -/
def contains_edge (g : Graph V E) (edge : Edge E) : Option Nat :=
  mapGet g.edge_to_index edge

/-- LabeledMultidigraph::get_edge; none models the expect panic. -/
def get_edge (g : Graph V E) (edge_index : Nat) : Option (Edge E) :=
  mapGet g.index_to_edge edge_index

/-- LabeledMultidigraph::get_edges_between; none models the bounds-check
panics. -/
def get_edges_between (g : Graph V E) (source_vertex_index target_vertex_index : Nat) :
    Option (List Nat) :=
  if (mapGet g.index_to_vertex source_vertex_index).isNone then none
  else if (mapGet g.index_to_vertex target_vertex_index).isNone then none
  else
    match mapGet g.edges_between (source_vertex_index, target_vertex_index) with
    | some eb => some eb
    | none => some []

/-- LabeledMultidigraph::vertices: the keys of index_to_vertex. -/
def vertices (g : Graph V E) : List Nat :=
  g.index_to_vertex.map Prod.fst

/-- LabeledMultidigraph::edges: the keys of index_to_edge. -/
def edges (g : Graph V E) : List Nat :=
  g.index_to_edge.map Prod.fst

/-- View of the edges-from adjacency set of a vertex (a missing key reads as
the empty set). -/
def edgesFromSet (g : Graph V E) (v : Nat) : List Nat :=
  (mapGet g.edges_from v).getD []

/-- View of the edges-between adjacency set of an ordered vertex pair. -/
def edgesBetweenSet (g : Graph V E) (u w : Nat) : List Nat :=
  (mapGet g.edges_between (u, w)).getD []

/-- Graph states reachable from new by add_vertex and add_edge calls,
including calls that panic (which leave the state unchanged). -/
inductive Reachable : Graph V E → Prop
  | new : Reachable new
  | add_vertex (g : Graph V E) (v : Vertex V) :
      Reachable g → Reachable (add_vertex g v).2
  | add_edge (g : Graph V E) (e : Edge E) :
      Reachable g → Reachable (add_edge g e).2

/-- Adjacency indexes agree with canonical edge storage. -/
def Consistent (g : Graph V E) : Prop :=
  (∀ v e, e ∈ edgesFromSet g v ↔
    ∃ ed, mapGet g.index_to_edge e = some ed ∧ ed.source = v) ∧
  (∀ u w e, e ∈ edgesBetweenSet g u w ↔
    ∃ ed, mapGet g.index_to_edge e = some ed ∧ ed.source = u ∧ ed.target = w)

/-- Full invariant package maintained by every reachable state. -/
structure Inv (g : Graph V E) : Prop where
  vcount : ∀ i, (mapGet g.index_to_vertex i).isSome ↔ i < g.vertex_to_index.length
  vbij : ∀ v i, mapGet g.vertex_to_index v = some i ↔ mapGet g.index_to_vertex i = some v
  ecount : ∀ i, (mapGet g.index_to_edge i).isSome ↔ i < g.edge_to_index.length
  ebij : ∀ e i, mapGet g.edge_to_index e = some i ↔ mapGet g.index_to_edge i = some e
  adj : Consistent g
  efromNodup : ∀ v, (edgesFromSet g v).Nodup
  ebetweenNodup : ∀ u w, (edgesBetweenSet g u w).Nodup
  vkeysNodup : (g.index_to_vertex.map Prod.fst).Nodup
  ekeysNodup : (g.index_to_edge.map Prod.fst).Nodup

end LabeledMultidigraph

namespace LabeledMultidigraph

variable {V E : Type} [DecidableEq V] [DecidableEq E]

theorem inv_new : Inv (new : Graph V E) := by
  refine ⟨?_, ?_, ?_, ?_, ⟨?_, ?_⟩, ?_, ?_, ?_, ?_⟩ <;>
    simp [new, mapGet, edgesFromSet, edgesBetweenSet]

theorem inv_add_vertex (g : Graph V E) (v : Vertex V) (h : Inv g) :
    Inv (add_vertex g v).2 := by
  simp only [add_vertex]
  cases hv : mapGet g.vertex_to_index v with
  | some i => exact h
  | none =>
    have hni : mapGet g.index_to_vertex g.vertex_to_index.length = none := by
      rw [← Option.not_isSome_iff_eq_none, h.vcount]
      omega
    refine ⟨?_, ?_, ?_, ?_, ⟨?_, ?_⟩, ?_, ?_, ?_, ?_⟩
    · intro i
      simp only [mapGet_insert, mapInsert_length_of_none _ _ _ hv]
      by_cases hi : i = g.vertex_to_index.length
      · subst hi
        simp
      · simp only [if_neg hi, h.vcount i]
        omega
    · intro u j
      simp only [mapGet_insert]
      by_cases hu : u = v
      · subst hu
        by_cases hj : j = g.vertex_to_index.length
        · subst hj
          simp
        · have hr : ¬mapGet g.index_to_vertex j = some u := fun hc => by
            have hcontra := (h.vbij u j).mpr hc
            rw [hv] at hcontra
            cases hcontra
          have hl : ¬g.vertex_to_index.length = j := fun hc => hj hc.symm
          simp [hj, hl, hr]
      · by_cases hj : j = g.vertex_to_index.length
        · subst hj
          have hl : ¬mapGet g.vertex_to_index u = some g.vertex_to_index.length :=
            fun hc => by
              have hcontra := (h.vbij u _).mp hc
              rw [hni] at hcontra
              cases hcontra
          have hr : ¬v = u := fun hc => hu hc.symm
          simp [hu, hl, hr]
        · simp [hu, hj, h.vbij u j]
    · exact h.ecount
    · exact h.ebij
    · exact h.adj.1
    · exact h.adj.2
    · exact h.efromNodup
    · exact h.ebetweenNodup
    · exact mapInsert_keys_nodup _ _ _ h.vkeysNodup
    · exact h.ekeysNodup

theorem inv_insert_edge (g g1 : Graph V E) (e : Edge E) (h : Inv g)
    (he : mapGet g.edge_to_index e = none)
    (h1 : g1.vertex_to_index = g.vertex_to_index)
    (h2 : g1.index_to_vertex = g.index_to_vertex)
    (h3 : g1.edge_to_index = mapInsert g.edge_to_index e g.edge_to_index.length)
    (h4 : g1.index_to_edge = mapInsert g.index_to_edge g.edge_to_index.length e)
    (h5 : g1.edges_from = mapInsert g.edges_from e.source
      (setInsert (edgesFromSet g e.source) g.edge_to_index.length))
    (h6 : g1.edges_between = mapInsert g.edges_between (e.source, e.target)
      (setInsert (edgesBetweenSet g e.source e.target) g.edge_to_index.length)) :
    Inv g1 := by
  have hne : mapGet g.index_to_edge g.edge_to_index.length = none := by
    rw [← Option.not_isSome_iff_eq_none, h.ecount]
    omega
  have hset : ∀ v, edgesFromSet g1 v =
      if v = e.source
      then setInsert (edgesFromSet g e.source) g.edge_to_index.length
      else edgesFromSet g v := by
    intro v
    simp only [edgesFromSet, h5, mapGet_insert]
    by_cases hv : v = e.source <;> simp [hv, edgesFromSet]
  have hsetB : ∀ u w, edgesBetweenSet g1 u w =
      if (u, w) = (e.source, e.target)
      then setInsert (edgesBetweenSet g e.source e.target) g.edge_to_index.length
      else edgesBetweenSet g u w := by
    intro u w
    simp only [edgesBetweenSet, h6, mapGet_insert]
    by_cases hv : (u, w) = (e.source, e.target) <;> simp [hv, edgesBetweenSet]
  refine ⟨?_, ?_, ?_, ?_, ⟨?_, ?_⟩, ?_, ?_, ?_, ?_⟩
  · intro i
    rw [h2, h1]
    exact h.vcount i
  · intro v i
    rw [h1, h2]
    exact h.vbij v i
  · intro i
    rw [h4, h3, mapGet_insert, mapInsert_length_of_none _ _ _ he]
    by_cases hi : i = g.edge_to_index.length
    · subst hi
      simp
    · simp only [if_neg hi, h.ecount i]
      omega
  · intro ed i
    rw [h3, h4, mapGet_insert, mapGet_insert]
    by_cases hed : ed = e
    · subst hed
      by_cases hi : i = g.edge_to_index.length
      · subst hi
        simp
      · have hr : ¬mapGet g.index_to_edge i = some ed := fun hc => by
          have hcontra := (h.ebij ed i).mpr hc
          rw [he] at hcontra
          cases hcontra
        have hl : ¬g.edge_to_index.length = i := fun hc => hi hc.symm
        simp [hi, hl, hr]
    · by_cases hi : i = g.edge_to_index.length
      · subst hi
        have hl : ¬mapGet g.edge_to_index ed = some g.edge_to_index.length :=
          fun hc => by
            have hcontra := (h.ebij ed _).mp hc
            rw [hne] at hcontra
            cases hcontra
        have hr : ¬e = ed := fun hc => hed hc.symm
        simp [hed, hl, hr]
      · simp [hed, hi, h.ebij ed i]
  · intro v i
    rw [hset v, h4, mapGet_insert]
    by_cases hv : v = e.source
    · rw [if_pos hv]
      by_cases hi : i = g.edge_to_index.length
      · rw [if_pos hi]
        exact iff_of_true ((mem_setInsert _ _ _).mpr (Or.inl hi))
          ⟨e, rfl, hv.symm⟩
      · rw [if_neg hi, mem_setInsert]
        constructor
        · rintro (hc | hc)
          · exact absurd hc hi
          · obtain ⟨ed, hed1, hed2⟩ := (h.adj.1 e.source i).mp hc
            exact ⟨ed, hed1, hed2.trans hv.symm⟩
        · rintro ⟨ed, hed1, hed2⟩
          exact Or.inr ((h.adj.1 e.source i).mpr ⟨ed, hed1, hed2.trans hv⟩)
    · rw [if_neg hv]
      by_cases hi : i = g.edge_to_index.length
      · subst hi
        apply iff_of_false
        · intro hc
          obtain ⟨ed, hed1, _⟩ := (h.adj.1 v _).mp hc
          rw [hne] at hed1
          cases hed1
        · rw [if_pos rfl]
          rintro ⟨ed, hed1, hed2⟩
          injection hed1 with hede
          exact hv (hed2.symm.trans (by rw [← hede]))
      · rw [if_neg hi]
        exact h.adj.1 v i
  · intro u w i
    rw [hsetB u w, h4, mapGet_insert]
    by_cases hv : (u, w) = (e.source, e.target)
    · rw [if_pos hv]
      rw [Prod.ext_iff] at hv
      obtain ⟨hu, hw⟩ := hv
      by_cases hi : i = g.edge_to_index.length
      · rw [if_pos hi]
        exact iff_of_true ((mem_setInsert _ _ _).mpr (Or.inl hi))
          ⟨e, rfl, hu.symm, hw.symm⟩
      · rw [if_neg hi, mem_setInsert]
        constructor
        · rintro (hc | hc)
          · exact absurd hc hi
          · obtain ⟨ed, hed1, hed2, hed3⟩ := (h.adj.2 e.source e.target i).mp hc
            exact ⟨ed, hed1, hed2.trans hu.symm, hed3.trans hw.symm⟩
        · rintro ⟨ed, hed1, hed2, hed3⟩
          exact Or.inr ((h.adj.2 e.source e.target i).mpr
            ⟨ed, hed1, hed2.trans hu, hed3.trans hw⟩)
    · rw [if_neg hv]
      by_cases hi : i = g.edge_to_index.length
      · subst hi
        apply iff_of_false
        · intro hc
          obtain ⟨ed, hed1, _⟩ := (h.adj.2 u w _).mp hc
          rw [hne] at hed1
          cases hed1
        · rw [if_pos rfl]
          rintro ⟨ed, hed1, hed2, hed3⟩
          injection hed1 with hede
          apply hv
          rw [Prod.ext_iff]
          constructor
          · exact hed2.symm.trans (by rw [← hede])
          · exact hed3.symm.trans (by rw [← hede])
      · rw [if_neg hi]
        exact h.adj.2 u w i
  · intro v
    rw [hset v]
    by_cases hv : v = e.source
    · rw [if_pos hv]
      exact setInsert_nodup _ _ (h.efromNodup e.source)
    · rw [if_neg hv]
      exact h.efromNodup v
  · intro u w
    rw [hsetB u w]
    by_cases hv : (u, w) = (e.source, e.target)
    · rw [if_pos hv]
      exact setInsert_nodup _ _ (h.ebetweenNodup e.source e.target)
    · rw [if_neg hv]
      exact h.ebetweenNodup u w
  · rw [h2]
    exact h.vkeysNodup
  · rw [h4]
    exact mapInsert_keys_nodup _ _ _ h.ekeysNodup

theorem inv_add_edge (g : Graph V E) (e : Edge E) (h : Inv g) :
    Inv (add_edge g e).2 := by
  simp only [add_edge]
  cases hvs : mapGet g.index_to_vertex e.source with
  | none => simpa [hvs] using h
  | some vs =>
    cases hvt : mapGet g.index_to_vertex e.target with
    | none => simpa [hvs, hvt] using h
    | some vt =>
      cases he : mapGet g.edge_to_index e with
      | some i => simpa [hvs, hvt, he] using h
      | none =>
        simp only [hvs, hvt, he, Option.isNone_some, Bool.false_eq_true, if_false]
        apply inv_insert_edge g _ e h he
        · rfl
        · rfl
        · rfl
        · rfl
        · cases hef : mapGet g.edges_from e.source with
          | some ef => simp [hef, edgesFromSet]
          | none => simp [hef, edgesFromSet, setInsert]
        · cases heb : mapGet g.edges_between (e.source, e.target) with
          | some eb => simp [heb, edgesBetweenSet]
          | none => simp [heb, edgesBetweenSet, setInsert]

theorem inv_reachable {g : Graph V E} (h : Reachable g) : Inv g := by
  induction h with
  | new => exact inv_new
  | add_vertex g v _ ih => exact inv_add_vertex g v ih
  | add_edge g e _ ih => exact inv_add_edge g e ih

end LabeledMultidigraph

theorem mapUnwrap_length {α : Type} (f : Nat → Option α) (l : List Nat)
    (r : List α) (h : mapUnwrap f l = some r) : r.length = l.length := by
  induction l generalizing r with
  | nil =>
    simp [mapUnwrap] at h
    subst h
    rfl
  | cons x xs ih =>
    cases hfx : f x with
    | none => simp [mapUnwrap, hfx] at h
    | some a =>
      cases hxs : mapUnwrap f xs with
      | none => simp [mapUnwrap, hfx, hxs] at h
      | some rest =>
        simp [mapUnwrap, hfx, hxs] at h
        subst h
        simp [ih rest hxs]

namespace LabeledMultidigraph

variable {V E : Type} [DecidableEq V] [DecidableEq E]

theorem get_vertex_isSome_iff (g : Graph V E) (h : Inv g) (i : Nat) :
    (get_vertex g i).isSome ↔ i < g.vertex_to_index.length :=
  h.vcount i

theorem edgesFromSet_eq_of_lookup (g : Graph V E) (i : Nat) (ef : List Nat)
    (hef : mapGet g.edges_from i = some ef) : edgesFromSet g i = ef := by
  simp [edgesFromSet, hef]

theorem add_vertex_preserves_index (g : Graph V E) (u : Vertex V) (h : Inv g)
    (i : Nat) (v0 : Vertex V) (hi : mapGet g.index_to_vertex i = some v0) :
    mapGet ((add_vertex g u).2).index_to_vertex i = some v0 := by
  simp only [add_vertex]
  cases hv : mapGet g.vertex_to_index u with
  | some j => exact hi
  | none =>
    simp only [mapGet_insert]
    have hlt : i < g.vertex_to_index.length := by
      rw [← h.vcount]
      simp [hi]
    rw [if_neg (by omega)]
    exact hi

theorem add_edge_preserves_index (g : Graph V E) (e : Edge E) (h : Inv g)
    (i : Nat) (ed : Edge E) (hi : mapGet g.index_to_edge i = some ed) :
    mapGet ((add_edge g e).2).index_to_edge i = some ed := by
  simp only [add_edge]
  cases hvs : mapGet g.index_to_vertex e.source with
  | none => simpa using hi
  | some vs =>
    cases hvt : mapGet g.index_to_vertex e.target with
    | none => simpa using hi
    | some vt =>
      cases he : mapGet g.edge_to_index e with
      | some j => simpa using hi
      | none =>
        simp only [Option.isNone_some, Bool.false_eq_true, if_false]
        have hlt : i < g.edge_to_index.length := by
          rw [← h.ecount]
          simp [hi]
        show mapGet (mapInsert g.index_to_edge g.edge_to_index.length e) i = some ed
        rw [mapGet_insert, if_neg (by omega)]
        exact hi

/-- C1: for every reachable graph state the adjacency indexes are consistent
with edge storage: an edge index appears in the edges-from set of a vertex v
iff the stored edge at that index has source v, and in the edges-between set
of the ordered pair (u, w) iff the stored edge has source u and target w. -/
theorem claim_C1_adjacency_consistency (g : Graph V E) (v u w e : Nat)
    (h : Reachable g) :
    (e ∈ edgesFromSet g v ↔ ∃ ed, get_edge g e = some ed ∧ ed.source = v) ∧
    (e ∈ edgesBetweenSet g u w ↔
      ∃ ed, get_edge g e = some ed ∧ ed.source = u ∧ ed.target = w) :=
  ⟨(inv_reachable h).adj.1 v e, (inv_reachable h).adj.2 u w e⟩

/-- C2: insertion is idempotent under entity equality: re-adding a vertex
whose label is already present returns the existing index and leaves the
whole state unchanged, and re-adding an edge whose (source, label, target)
triple is already present (with valid endpoints) returns the existing edge
index and leaves the state unchanged. -/
theorem claim_C2_dedup_idempotent (g : Graph V E) (v : Vertex V) (e : Edge E)
    (i j : Nat)
    (hv : contains_vertex g v = some i)
    (hes : (mapGet g.index_to_vertex e.source).isSome)
    (het : (mapGet g.index_to_vertex e.target).isSome)
    (he : contains_edge g e = some j) :
    add_vertex g v = (i, g) ∧ add_edge g e = (some j, g) := by
  constructor
  · unfold contains_vertex at hv
    simp [add_vertex, hv]
  · unfold contains_edge at he
    obtain ⟨vs, hvs⟩ := Option.isSome_iff_exists.mp hes
    obtain ⟨vt, hvt⟩ := Option.isSome_iff_exists.mp het
    simp [add_edge, hvs, hvt, he]

/-- C3: index density and stability: in every reachable state the issued
vertex indexes are exactly 0 .. N-1 for N the vertex count and vertices()
enumerates exactly that set without duplicates, the same holds for edges, a
fresh vertex receives the next sequential index, and an index-to-entity
binding survives any later insertion unchanged. -/
theorem claim_C3_index_density (g : Graph V E) (h : Reachable g)
    (u : Vertex V) (e : Edge E) :
    ((vertices g).Nodup ∧ ∀ i, i ∈ vertices g ↔ i < g.vertex_to_index.length) ∧
    ((edges g).Nodup ∧ ∀ i, i ∈ edges g ↔ i < g.edge_to_index.length) ∧
    (contains_vertex g u = none → (add_vertex g u).1 = g.vertex_to_index.length) ∧
    (∀ i v0, mapGet g.index_to_vertex i = some v0 →
      mapGet ((add_vertex g u).2).index_to_vertex i = some v0) ∧
    (∀ i ed, mapGet g.index_to_edge i = some ed →
      mapGet ((add_edge g e).2).index_to_edge i = some ed) := by
  have hInv := inv_reachable h
  refine ⟨⟨hInv.vkeysNodup, ?_⟩, ⟨hInv.ekeysNodup, ?_⟩, ?_, ?_, ?_⟩
  · intro i
    rw [vertices, ← mapGet_isSome_iff_mem, hInv.vcount]
  · intro i
    rw [edges, ← mapGet_isSome_iff_mem, hInv.ecount]
  · intro hnone
    unfold contains_vertex at hnone
    simp [add_vertex, hnone]
  · exact fun i v0 => add_vertex_preserves_index g u hInv i v0
  · exact fun i ed => add_edge_preserves_index g e hInv i ed

end LabeledMultidigraph

namespace LabeledMultidigraph

variable {V E : Type} [DecidableEq V] [DecidableEq E]

theorem vcount_some (g : Graph V E) (h : Inv g) {i : Nat} {v0 : Vertex V}
    (hv : mapGet g.index_to_vertex i = some v0) :
    i < g.vertex_to_index.length := by
  rw [← h.vcount]
  simp [hv]

theorem vcount_none (g : Graph V E) (h : Inv g) {i : Nat}
    (hv : mapGet g.index_to_vertex i = none) :
    ¬i < g.vertex_to_index.length := by
  rw [← h.vcount]
  simp [hv]

theorem get_neighbors_isSome (g : Graph V E) (h : Inv g) (i : Nat)
    (hi : i < g.vertex_to_index.length) : (get_neighbors g i).isSome := by
  obtain ⟨v0, hv0⟩ := Option.isSome_iff_exists.mp ((h.vcount i).mpr hi)
  rw [get_neighbors, hv0]
  simp only [Option.isNone_some, Bool.false_eq_true, if_false]
  cases hef : mapGet g.edges_from i with
  | none => simp
  | some ef =>
    apply mapUnwrap_isSome
    intro x hx
    have hxs : x ∈ edgesFromSet g i := by
      simp [edgesFromSet, hef, hx]
    obtain ⟨ed, hed1, -⟩ := (h.adj.1 i x).mp hxs
    simp [hed1]

/-- C4: fatal on bad index: each lookup operation aborts exactly on an index
outside the issued range 0 .. count-1, add_edge aborts exactly when an
endpoint is outside the issued vertex range, and with issued indexes none of
these operations aborts. -/
theorem claim_C4_fatal_on_bad_index (g : Graph V E) (h : Reachable g)
    (i u w : Nat) (e : Edge E) :
    ((get_vertex g i).isSome ↔ i < g.vertex_to_index.length) ∧
    ((get_edge g i).isSome ↔ i < g.edge_to_index.length) ∧
    ((get_neighbors g i).isSome ↔ i < g.vertex_to_index.length) ∧
    ((get_edges_from g i).isSome ↔ i < g.vertex_to_index.length) ∧
    ((get_edges_between g u w).isSome ↔
      u < g.vertex_to_index.length ∧ w < g.vertex_to_index.length) ∧
    (((add_edge g e).1).isSome ↔
      e.source < g.vertex_to_index.length ∧
      e.target < g.vertex_to_index.length) := by
  have hInv := inv_reachable h
  refine ⟨hInv.vcount i, hInv.ecount i, ?_, ?_, ?_, ?_⟩
  · constructor
    · intro hs
      by_contra hc
      have hnone : mapGet g.index_to_vertex i = none := by
        rw [← Option.not_isSome_iff_eq_none, hInv.vcount i]
        exact hc
      rw [get_neighbors, hnone] at hs
      simp at hs
    · exact get_neighbors_isSome g hInv i
  · cases hv : mapGet g.index_to_vertex i with
    | none =>
      rw [get_edges_from, hv]
      simp [vcount_none g hInv hv]
    | some v0 =>
      rw [get_edges_from, hv]
      simp only [Option.isNone_some, Bool.false_eq_true, if_false]
      cases hef : mapGet g.edges_from i <;> simp [vcount_some g hInv hv]
  · cases hvu : mapGet g.index_to_vertex u with
    | none =>
      rw [get_edges_between, hvu]
      simp [vcount_none g hInv hvu]
    | some v0 =>
      cases hvw : mapGet g.index_to_vertex w with
      | none =>
        rw [get_edges_between, hvu, hvw]
        simp [vcount_none g hInv hvw]
      | some v1 =>
        rw [get_edges_between, hvu, hvw]
        simp only [Option.isNone_some, Bool.false_eq_true, if_false]
        cases heb : mapGet g.edges_between (u, w) <;>
          simp [vcount_some g hInv hvu, vcount_some g hInv hvw]
  · cases hvs : mapGet g.index_to_vertex e.source with
    | none =>
      simp only [add_edge, hvs]
      simp [vcount_none g hInv hvs]
    | some v0 =>
      cases hvt : mapGet g.index_to_vertex e.target with
      | none =>
        simp only [add_edge, hvs, hvt]
        simp [vcount_none g hInv hvt, vcount_some g hInv hvs]
      | some v1 =>
        simp only [add_edge, hvs, hvt]
        cases he : mapGet g.edge_to_index e <;>
          simp [he, vcount_some g hInv hvs, vcount_some g hInv hvt]

/-- C5: round trip: right after add_vertex returns an index for a label,
contains_vertex finds exactly that index, get_vertex at that index returns
the vertex holding the label, and the binding survives any single further
insertion. -/
theorem claim_C5_round_trip (g : Graph V E) (h : Reachable g) (l : V)
    (i : Nat) (g1 : Graph V E) (hadd : add_vertex g ⟨l⟩ = (i, g1)) :
    contains_vertex g1 ⟨l⟩ = some i ∧ get_vertex g1 i = some ⟨l⟩ ∧
    (∀ v2 : Vertex V, contains_vertex ((add_vertex g1 v2).2) ⟨l⟩ = some i) ∧
    (∀ e2 : Edge E, contains_vertex ((add_edge g1 e2).2) ⟨l⟩ = some i) := by
  have hInv := inv_reachable h
  have hmain : contains_vertex g1 ⟨l⟩ = some i ∧ get_vertex g1 i = some ⟨l⟩ := by
    cases hv : mapGet g.vertex_to_index ⟨l⟩ with
    | some j =>
      simp only [add_vertex, hv, Prod.mk.injEq] at hadd
      obtain ⟨hji, hgg⟩ := hadd
      subst hgg
      refine ⟨?_, ?_⟩
      · unfold contains_vertex
        rw [hv, hji]
      · exact (hInv.vbij ⟨l⟩ i).mp (by rw [hv, hji])
    | none =>
      simp only [add_vertex, hv, Prod.mk.injEq] at hadd
      obtain ⟨hji, hgg⟩ := hadd
      refine ⟨?_, ?_⟩
      · unfold contains_vertex
        rw [← hgg]
        show mapGet (mapInsert g.vertex_to_index ⟨l⟩ g.vertex_to_index.length) ⟨l⟩
          = some i
        rw [mapGet_insert, if_pos rfl, hji]
      · unfold get_vertex
        rw [← hgg]
        show mapGet (mapInsert g.index_to_vertex g.vertex_to_index.length ⟨l⟩) i
          = some ⟨l⟩
        rw [mapGet_insert, if_pos hji.symm]
  refine ⟨hmain.1, hmain.2, ?_, ?_⟩
  · intro v2
    have hc := hmain.1
    unfold contains_vertex at hc ⊢
    simp only [add_vertex]
    cases hv2 : mapGet g1.vertex_to_index v2 with
    | some j => exact hc
    | none =>
      have hne : ¬(⟨l⟩ : Vertex V) = v2 := by
        intro hx
        rw [hx, hv2] at hc
        cases hc
      simp only [mapGet_insert, if_neg hne]
      exact hc
  · intro e2
    have hc := hmain.1
    unfold contains_vertex at hc ⊢
    simp only [add_edge]
    cases hvs : mapGet g1.index_to_vertex e2.source with
    | none => simpa using hc
    | some vs =>
      cases hvt : mapGet g1.index_to_vertex e2.target with
      | none => simpa using hc
      | some vt =>
        cases he : mapGet g1.edge_to_index e2 with
        | some j => simpa using hc
        | none => simpa using hc

/-- C6: atomicity of insertion: an add_edge call that aborts leaves the state
exactly as it was before the call, and the state after any add_vertex or
add_edge call keeps the adjacency indexes consistent with edge storage. -/
theorem claim_C6_atomicity (g : Graph V E) (h : Reachable g) (v : Vertex V)
    (e : Edge E) :
    ((add_edge g e).1 = none → (add_edge g e).2 = g) ∧
    Consistent (add_vertex g v).2 ∧ Consistent (add_edge g e).2 := by
  refine ⟨?_, (inv_add_vertex g v (inv_reachable h)).adj,
    (inv_add_edge g e (inv_reachable h)).adj⟩
  intro habort
  simp only [add_edge] at habort ⊢
  cases hvs : mapGet g.index_to_vertex e.source with
  | none => simp
  | some vs =>
    rw [hvs] at habort
    cases hvt : mapGet g.index_to_vertex e.target with
    | none => simp [hvs]
    | some vt =>
      rw [hvt] at habort
      cases he : mapGet g.edge_to_index e with
      | some j =>
        rw [he] at habort
        simp at habort
      | none =>
        rw [he] at habort
        simp at habort

/-- C7: expected absence as data: contains_vertex answers some index exactly
when that label is stored at that index and none exactly when no index holds
it; contains_edge does the same for the full (source, label, target) triple;
in the model both are total lookups with no abort outcome. -/
theorem claim_C7_contains_lookup (g : Graph V E) (h : Reachable g)
    (v : Vertex V) (e : Edge E) (i j : Nat) :
    (contains_vertex g v = some i ↔ get_vertex g i = some v) ∧
    (contains_edge g e = some j ↔ get_edge g j = some e) ∧
    (contains_vertex g v = none ↔ ∀ k, ¬get_vertex g k = some v) ∧
    (contains_edge g e = none ↔ ∀ k, ¬get_edge g k = some e) := by
  have hInv := inv_reachable h
  refine ⟨hInv.vbij v i, hInv.ebij e j, ?_, ?_⟩
  · constructor
    · intro hn k hk
      unfold contains_vertex at hn
      have hvk := (hInv.vbij v k).mpr hk
      rw [hn] at hvk
      cases hvk
    · intro hall
      cases hc : contains_vertex g v with
      | none => rfl
      | some k => exact absurd ((hInv.vbij v k).mp hc) (hall k)
  · constructor
    · intro hn k hk
      unfold contains_edge at hn
      have hek := (hInv.ebij e k).mpr hk
      rw [hn] at hek
      cases hek
    · intro hall
      cases hc : contains_edge g e with
      | none => rfl
      | some k => exact absurd ((hInv.ebij e k).mp hc) (hall k)

/-- C8: empty result instead of failure: for issued vertex indexes, a vertex
with no outgoing stored edge yields the empty sequence from get_edges_from
and get_neighbors, and a pair with no connecting stored edge yields the
empty sequence from get_edges_between. -/
theorem claim_C8_empty_result (g : Graph V E) (h : Reachable g) (u w : Nat)
    (hu : u < g.vertex_to_index.length) (hw : w < g.vertex_to_index.length) :
    ((∀ j ed, get_edge g j = some ed → ¬ed.source = u) →
      get_edges_from g u = some [] ∧ get_neighbors g u = some []) ∧
    ((∀ j ed, get_edge g j = some ed → ¬(ed.source = u ∧ ed.target = w)) →
      get_edges_between g u w = some []) := by
  have hInv := inv_reachable h
  obtain ⟨v0, hv0⟩ := Option.isSome_iff_exists.mp ((hInv.vcount u).mpr hu)
  obtain ⟨v1, hv1⟩ := Option.isSome_iff_exists.mp ((hInv.vcount w).mpr hw)
  constructor
  · intro hno
    have hempty : edgesFromSet g u = [] := by
      rw [List.eq_nil_iff_forall_not_mem]
      intro x hx
      obtain ⟨ed, hed1, hed2⟩ := (hInv.adj.1 u x).mp hx
      exact hno x ed hed1 hed2
    constructor
    · rw [get_edges_from, hv0]
      simp only [Option.isNone_some, Bool.false_eq_true, if_false]
      cases hef : mapGet g.edges_from u with
      | none => rfl
      | some ef =>
        have hefe : ef = [] := by
          have h2 := edgesFromSet_eq_of_lookup g u ef hef
          rw [hempty] at h2
          exact h2.symm
        rw [hefe]
    · rw [get_neighbors, hv0]
      simp only [Option.isNone_some, Bool.false_eq_true, if_false]
      cases hef : mapGet g.edges_from u with
      | none => rfl
      | some ef =>
        have hefe : ef = [] := by
          have h2 := edgesFromSet_eq_of_lookup g u ef hef
          rw [hempty] at h2
          exact h2.symm
        rw [hefe]
        rfl
  · intro hno
    have hempty : edgesBetweenSet g u w = [] := by
      rw [List.eq_nil_iff_forall_not_mem]
      intro x hx
      obtain ⟨ed, hed1, hed2, hed3⟩ := (hInv.adj.2 u w x).mp hx
      exact hno x ed hed1 ⟨hed2, hed3⟩
    rw [get_edges_between, hv0, hv1]
    simp only [Option.isNone_some, Bool.false_eq_true, if_false]
    cases heb : mapGet g.edges_between (u, w) with
    | none => rfl
    | some eb =>
      have hebe : eb = [] := by
        have h2 : edgesBetweenSet g u w = eb := by
          simp [edgesBetweenSet, heb]
        rw [hempty] at h2
        exact h2.symm
      rw [hebe]

end LabeledMultidigraph

namespace LabeledMultidigraph

variable {V E : Type} [DecidableEq V] [DecidableEq E]

theorem get_neighbors_eq_mapUnwrap (g : Graph V E) (h : Inv g) (u : Nat)
    (hu : u < g.vertex_to_index.length) :
    get_neighbors g u =
      mapUnwrap (fun ei => (mapGet g.index_to_edge ei).map Edge.target)
        (edgesFromSet g u) := by
  obtain ⟨v0, hv0⟩ := Option.isSome_iff_exists.mp ((h.vcount u).mpr hu)
  rw [get_neighbors, hv0]
  simp only [Option.isNone_some, Bool.false_eq_true, if_false]
  cases hef : mapGet g.edges_from u with
  | none => simp [edgesFromSet, hef, mapUnwrap]
  | some ef => simp [edgesFromSet, hef]

/-- C10: get_neighbors yields one target per stored edge whose source is the
given vertex: the returned sequence is exactly as long as the adjacency set,
and each vertex index w occurs in it once per edge index whose stored edge
has the given source and target w, so repeated targets stay repeated. -/
theorem claim_C10_neighbors_multiset (g : Graph V E) (h : Reachable g)
    (u : Nat) (hu : u < g.vertex_to_index.length) :
    ∃ l, get_neighbors g u = some l ∧
      l.length = (edgesFromSet g u).length ∧
      ∀ w, l.count w =
        ((List.range g.edge_to_index.length).filter
          (fun j =>
            match get_edge g j with
            | some ed => decide (ed.source = u ∧ ed.target = w)
            | none => false)).length := by
  have hInv := inv_reachable h
  have hkey := get_neighbors_eq_mapUnwrap g hInv u hu
  obtain ⟨l, hl⟩ := Option.isSome_iff_exists.mp (get_neighbors_isSome g hInv u hu)
  have hml : mapUnwrap (fun ei => (mapGet g.index_to_edge ei).map Edge.target)
      (edgesFromSet g u) = some l := by
    rw [← hkey]
    exact hl
  refine ⟨l, hl, mapUnwrap_length _ _ _ hml, ?_⟩
  intro w
  have hcount : l.count w = (edgesFromSet g u).countP
      (fun x => (mapGet g.index_to_edge x).map Edge.target == some w) :=
    mapUnwrap_count _ _ _ hml w
  rw [hcount, List.countP_eq_length_filter]
  have hchar : ∀ x,
      x ∈ (edgesFromSet g u).filter
        (fun x => (mapGet g.index_to_edge x).map Edge.target == some w) ↔
      x ∈ (List.range g.edge_to_index.length).filter
        (fun j =>
          match get_edge g j with
          | some ed => decide (ed.source = u ∧ ed.target = w)
          | none => false) := by
    intro x
    simp only [List.mem_filter, List.mem_range]
    constructor
    · rintro ⟨hxs, hpx⟩
      obtain ⟨ed, hed1, hed2⟩ := (hInv.adj.1 u x).mp hxs
      have hxlt : x < g.edge_to_index.length := by
        rw [← hInv.ecount]
        simp [hed1]
      refine ⟨hxlt, ?_⟩
      have hget : get_edge g x = some ed := hed1
      rw [hget]
      rw [hed1] at hpx
      simp at hpx
      simp [hed2, hpx]
    · rintro ⟨hxlt, hpx⟩
      obtain ⟨ed, hed⟩ := Option.isSome_iff_exists.mp ((hInv.ecount x).mpr hxlt)
      have hget : get_edge g x = some ed := hed
      rw [hget] at hpx
      simp only [decide_eq_true_eq] at hpx
      obtain ⟨hsrc, htgt⟩ := hpx
      refine ⟨(hInv.adj.1 u x).mpr ⟨ed, hed, hsrc⟩, ?_⟩
      rw [hed]
      simp [htgt]
  have hnd1 : ((edgesFromSet g u).filter
      (fun x => (mapGet g.index_to_edge x).map Edge.target == some w)).Nodup :=
    (hInv.efromNodup u).filter _
  have hnd2 : ((List.range g.edge_to_index.length).filter
      (fun j =>
        match get_edge g j with
        | some ed => decide (ed.source = u ∧ ed.target = w)
        | none => false)).Nodup :=
    (List.nodup_range _).filter _
  calc ((edgesFromSet g u).filter
        (fun x => (mapGet g.index_to_edge x).map Edge.target == some w)).length
      = ((edgesFromSet g u).filter
        (fun x => (mapGet g.index_to_edge x).map Edge.target
          == some w)).toFinset.card := (List.toFinset_card_of_nodup hnd1).symm
    _ = ((List.range g.edge_to_index.length).filter
        (fun j =>
          match get_edge g j with
          | some ed => decide (ed.source = u ∧ ed.target = w)
          | none => false)).toFinset.card := by
        congr 1
        ext x
        simp only [List.mem_toFinset]
        exact hchar x
    _ = ((List.range g.edge_to_index.length).filter
        (fun j =>
          match get_edge g j with
          | some ed => decide (ed.source = u ∧ ed.target = w)
          | none => false)).length := List.toFinset_card_of_nodup hnd2

end LabeledMultidigraph

namespace DirectedGraph

/-- Vertex from src/directed_graph.rs: carries exactly one data payload. -/
structure Vertex (V : Type) where
  data : V
deriving DecidableEq

/-- Edge from src/directed_graph.rs: source index, data payload, target
index. -/
structure Edge (E : Type) where
  source : Nat
  data : E
  target : Nat
deriving DecidableEq

/-- State of DirectedGraph: the same six HashMap fields as the labeled
version, over the data-carrying entities. -/
structure Graph (V E : Type) where
  vertex_to_index : List (Vertex V × Nat)
  index_to_vertex : List (Nat × Vertex V)
  edge_to_index : List (Edge E × Nat)
  index_to_edge : List (Nat × Edge E)
  edges_from : List (Nat × List Nat)
  edges_between : List ((Nat × Nat) × List Nat)
deriving DecidableEq

variable {V E : Type} [DecidableEq V] [DecidableEq E]

/-- DirectedGraph::new. -/
def new : Graph V E :=
  { vertex_to_index := []
    index_to_vertex := []
    edge_to_index := []
    index_to_edge := []
    edges_from := []
    edges_between := [] }

/-- DirectedGraph::add_vertex. -/
def add_vertex (g : Graph V E) (vertex : Vertex V) : Nat × Graph V E :=
  match mapGet g.vertex_to_index vertex with
  | some vertex_index => (vertex_index, g)
  | none =>
    let vertex_index := g.vertex_to_index.length
    (vertex_index,
      { g with
        vertex_to_index := mapInsert g.vertex_to_index vertex vertex_index
        index_to_vertex := mapInsert g.index_to_vertex vertex_index vertex })

/-- DirectedGraph::contains_vertex. -/
def contains_vertex (g : Graph V E) (vertex : Vertex V) : Option Nat :=
  mapGet g.vertex_to_index vertex

/-- DirectedGraph::get_vertex; none models the expect panic. -/
def get_vertex (g : Graph V E) (vertex_index : Nat) : Option (Vertex V) :=
  mapGet g.index_to_vertex vertex_index

/-- DirectedGraph::get_neighbors; none models the bounds-check panic and the
unwrap inside the iterator. -/
def get_neighbors (g : Graph V E) (vertex_index : Nat) : Option (List Nat) :=
  if (mapGet g.index_to_vertex vertex_index).isNone then none
  else
    match mapGet g.edges_from vertex_index with
    | some ef =>
      mapUnwrap (fun edge_index => (mapGet g.index_to_edge edge_index).map Edge.target) ef
    | none => some []

/-- DirectedGraph::get_edges_from; none models the bounds-check panic. -/
def get_edges_from (g : Graph V E) (vertex_index : Nat) : Option (List Nat) :=
  if (mapGet g.index_to_vertex vertex_index).isNone then none
  else
    match mapGet g.edges_from vertex_index with
    | some ef => some ef
    | none => some []

/-- DirectedGraph::add_edge, shaped exactly like the labeled version. -/
def add_edge (g : Graph V E) (edge : Edge E) : Option Nat × Graph V E :=
  let edge_source := edge.source
  let edge_target := edge.target
  if (mapGet g.index_to_vertex edge_source).isNone then (none, g)
  else if (mapGet g.index_to_vertex edge_target).isNone then (none, g)
  else
    match mapGet g.edge_to_index edge with
    | some edge_index => (some edge_index, g)
    | none =>
      let edge_index := g.edge_to_index.length
      (some edge_index,
        { g with
          edge_to_index := mapInsert g.edge_to_index edge edge_index
          index_to_edge := mapInsert g.index_to_edge edge_index edge
          edges_from :=
            match mapGet g.edges_from edge_source with
            | some ef => mapInsert g.edges_from edge_source (setInsert ef edge_index)
            | none => mapInsert g.edges_from edge_source [edge_index]
          edges_between :=
            match mapGet g.edges_between (edge_source, edge_target) with
            | some eb =>
              mapInsert g.edges_between (edge_source, edge_target) (setInsert eb edge_index)
            | none => mapInsert g.edges_between (edge_source, edge_target) [edge_index] })

/-- DirectedGraph::contains_edge. -/
def contains_edge (g : Graph V E) (edge : Edge E) : Option Nat :=
  mapGet g.edge_to_index edge

/-- DirectedGraph::get_edge; none models the expect panic. -/
def get_edge (g : Graph V E) (edge_index : Nat) : Option (Edge E) :=
  mapGet g.index_to_edge edge_index

/-- DirectedGraph::get_edges_between; none models the bounds-check panics. -/
def get_edges_between (g : Graph V E) (source_vertex_index target_vertex_index : Nat) :
    Option (List Nat) :=
  if (mapGet g.index_to_vertex source_vertex_index).isNone then none
  else if (mapGet g.index_to_vertex target_vertex_index).isNone then none
  else
    match mapGet g.edges_between (source_vertex_index, target_vertex_index) with
    | some eb => some eb
    | none => some []

/-- DirectedGraph::vertices. -/
def vertices (g : Graph V E) : List Nat :=
  g.index_to_vertex.map Prod.fst

/-- DirectedGraph::edges. -/
def edges (g : Graph V E) : List Nat :=
  g.index_to_edge.map Prod.fst

end DirectedGraph

/-- Renaming of a data-carrying vertex into a label-carrying vertex. -/
def vLM {V : Type} (x : DirectedGraph.Vertex V) : LabeledMultidigraph.Vertex V :=
  ⟨x.data⟩

/-- Renaming of a data-carrying edge into a label-carrying edge. -/
def eLM {E : Type} (x : DirectedGraph.Edge E) : LabeledMultidigraph.Edge E :=
  ⟨x.source, x.data, x.target⟩

/-- Renaming of a whole DirectedGraph state into the corresponding
LabeledMultidigraph state. -/
def gLM {V E : Type} (g : DirectedGraph.Graph V E) :
    LabeledMultidigraph.Graph V E where
  vertex_to_index := g.vertex_to_index.map (fun p => (vLM p.1, p.2))
  index_to_vertex := g.index_to_vertex.map (fun p => (p.1, vLM p.2))
  edge_to_index := g.edge_to_index.map (fun p => (eLM p.1, p.2))
  index_to_edge := g.index_to_edge.map (fun p => (p.1, eLM p.2))
  edges_from := g.edges_from
  edges_between := g.edges_between

theorem vLM_injective {V : Type} : Function.Injective (vLM (V := V)) := by
  intro a b h
  cases a
  cases b
  simp [vLM] at h
  simp [h]

theorem eLM_injective {E : Type} : Function.Injective (eLM (E := E)) := by
  intro a b h
  cases a
  cases b
  simp [eLM] at h
  obtain ⟨h1, h2, h3⟩ := h
  simp [h1, h2, h3]

theorem mapGet_map_key {α α2 β : Type} [DecidableEq α] [DecidableEq α2]
    (f : α → α2) (hf : Function.Injective f) (m : List (α × β)) (k : α) :
    mapGet (m.map (fun p => (f p.1, p.2))) (f k) = mapGet m k := by
  induction m with
  | nil => simp [mapGet]
  | cons p rest ih =>
    obtain ⟨k0, v0⟩ := p
    by_cases hk : k = k0
    · subst hk
      simp [mapGet]
    · have hfk : ¬f k = f k0 := fun hc => hk (hf hc)
      simp [mapGet, hk, hfk, ih]

theorem mapGet_map_val {α β β2 : Type} [DecidableEq α] (f : β → β2)
    (m : List (α × β)) (k : α) :
    mapGet (m.map (fun p => (p.1, f p.2))) k = (mapGet m k).map f := by
  induction m with
  | nil => simp [mapGet]
  | cons p rest ih =>
    obtain ⟨k0, v0⟩ := p
    by_cases hk : k = k0 <;> simp [mapGet, hk, ih]

theorem mapInsert_map_key {α α2 β : Type} [DecidableEq α] [DecidableEq α2]
    (f : α → α2) (hf : Function.Injective f) (m : List (α × β)) (k : α)
    (v : β) :
    (mapInsert m k v).map (fun p => (f p.1, p.2))
      = mapInsert (m.map (fun p => (f p.1, p.2))) (f k) v := by
  induction m with
  | nil => simp [mapInsert]
  | cons p rest ih =>
    obtain ⟨k0, v0⟩ := p
    by_cases hk : k = k0
    · subst hk
      simp [mapInsert]
    · have hfk : ¬f k = f k0 := fun hc => hk (hf hc)
      simp [mapInsert, hk, hfk, ih]

theorem mapInsert_map_val {α β β2 : Type} [DecidableEq α] (f : β → β2)
    (m : List (α × β)) (k : α) (v : β) :
    (mapInsert m k v).map (fun p => (p.1, f p.2))
      = mapInsert (m.map (fun p => (p.1, f p.2))) k (f v) := by
  induction m with
  | nil => simp [mapInsert]
  | cons p rest ih =>
    obtain ⟨k0, v0⟩ := p
    by_cases hk : k = k0 <;> simp [mapInsert, hk, ih]

theorem lm_dg_add_vertex {V E : Type} [DecidableEq V] [DecidableEq E]
    (g : DirectedGraph.Graph V E) (v : DirectedGraph.Vertex V) :
    LabeledMultidigraph.add_vertex (gLM g) (vLM v)
      = ((DirectedGraph.add_vertex g v).1, gLM (DirectedGraph.add_vertex g v).2) := by
  have hget : mapGet (gLM g).vertex_to_index (vLM v) = mapGet g.vertex_to_index v :=
    mapGet_map_key vLM vLM_injective g.vertex_to_index v
  rw [LabeledMultidigraph.add_vertex, DirectedGraph.add_vertex, hget]
  cases hv : mapGet g.vertex_to_index v with
  | some i => rfl
  | none =>
    simp [gLM, mapInsert_map_key vLM vLM_injective, mapInsert_map_val]

theorem lm_dg_add_edge {V E : Type} [DecidableEq V] [DecidableEq E]
    (g : DirectedGraph.Graph V E) (e : DirectedGraph.Edge E) :
    LabeledMultidigraph.add_edge (gLM g) (eLM e)
      = ((DirectedGraph.add_edge g e).1, gLM (DirectedGraph.add_edge g e).2) := by
  have hgete : mapGet (gLM g).edge_to_index (eLM e) = mapGet g.edge_to_index e :=
    mapGet_map_key eLM eLM_injective g.edge_to_index e
  have hsrc : (eLM e).source = e.source := rfl
  have htgt : (eLM e).target = e.target := rfl
  rw [LabeledMultidigraph.add_edge, DirectedGraph.add_edge, hsrc, htgt, hgete]
  have hv : ∀ k, mapGet (gLM g).index_to_vertex k = (mapGet g.index_to_vertex k).map vLM :=
    fun k => mapGet_map_val vLM g.index_to_vertex k
  rw [hv e.source, hv e.target]
  cases hvs : mapGet g.index_to_vertex e.source with
  | none => rfl
  | some vs =>
    cases hvt : mapGet g.index_to_vertex e.target with
    | none => rfl
    | some vt =>
      cases he : mapGet g.edge_to_index e with
      | some j => rfl
      | none =>
        simp only [Option.map_some, Option.isNone_some, Bool.false_eq_true,
          if_false]
        simp [gLM, mapInsert_map_key eLM eLM_injective, mapInsert_map_val]

theorem lm_dg_contains_vertex {V E : Type} [DecidableEq V] [DecidableEq E]
    (g : DirectedGraph.Graph V E) (v : DirectedGraph.Vertex V) :
    LabeledMultidigraph.contains_vertex (gLM g) (vLM v)
      = DirectedGraph.contains_vertex g v :=
  mapGet_map_key vLM vLM_injective g.vertex_to_index v

theorem lm_dg_contains_edge {V E : Type} [DecidableEq V] [DecidableEq E]
    (g : DirectedGraph.Graph V E) (e : DirectedGraph.Edge E) :
    LabeledMultidigraph.contains_edge (gLM g) (eLM e)
      = DirectedGraph.contains_edge g e :=
  mapGet_map_key eLM eLM_injective g.edge_to_index e

theorem lm_dg_get_vertex {V E : Type} [DecidableEq V] [DecidableEq E]
    (g : DirectedGraph.Graph V E) (i : Nat) :
    LabeledMultidigraph.get_vertex (gLM g) i
      = (DirectedGraph.get_vertex g i).map vLM :=
  mapGet_map_val vLM g.index_to_vertex i

theorem lm_dg_get_edge {V E : Type} [DecidableEq V] [DecidableEq E]
    (g : DirectedGraph.Graph V E) (i : Nat) :
    LabeledMultidigraph.get_edge (gLM g) i
      = (DirectedGraph.get_edge g i).map eLM :=
  mapGet_map_val eLM g.index_to_edge i

theorem lm_dg_unwrap_fun {V E : Type} [DecidableEq V] [DecidableEq E]
    (g : DirectedGraph.Graph V E) :
    (fun edge_index => (mapGet (gLM g).index_to_edge edge_index).map
      LabeledMultidigraph.Edge.target)
      = (fun edge_index => (mapGet g.index_to_edge edge_index).map
        DirectedGraph.Edge.target) := by
  funext ei
  rw [show (gLM g).index_to_edge = g.index_to_edge.map (fun p => (p.1, eLM p.2))
    from rfl, mapGet_map_val]
  cases mapGet g.index_to_edge ei <;> rfl

theorem lm_dg_get_neighbors {V E : Type} [DecidableEq V] [DecidableEq E]
    (g : DirectedGraph.Graph V E) (i : Nat) :
    LabeledMultidigraph.get_neighbors (gLM g) i
      = DirectedGraph.get_neighbors g i := by
  rw [LabeledMultidigraph.get_neighbors, DirectedGraph.get_neighbors,
    show (gLM g).index_to_vertex = g.index_to_vertex.map (fun p => (p.1, vLM p.2))
      from rfl, mapGet_map_val, lm_dg_unwrap_fun,
    show (gLM g).edges_from = g.edges_from from rfl]
  cases mapGet g.index_to_vertex i <;> rfl

theorem lm_dg_get_edges_from {V E : Type} [DecidableEq V] [DecidableEq E]
    (g : DirectedGraph.Graph V E) (i : Nat) :
    LabeledMultidigraph.get_edges_from (gLM g) i
      = DirectedGraph.get_edges_from g i := by
  rw [LabeledMultidigraph.get_edges_from, DirectedGraph.get_edges_from,
    show (gLM g).index_to_vertex = g.index_to_vertex.map (fun p => (p.1, vLM p.2))
      from rfl, mapGet_map_val,
    show (gLM g).edges_from = g.edges_from from rfl]
  cases mapGet g.index_to_vertex i <;> rfl

theorem lm_dg_get_edges_between {V E : Type} [DecidableEq V] [DecidableEq E]
    (g : DirectedGraph.Graph V E) (s t : Nat) :
    LabeledMultidigraph.get_edges_between (gLM g) s t
      = DirectedGraph.get_edges_between g s t := by
  rw [LabeledMultidigraph.get_edges_between, DirectedGraph.get_edges_between]
  simp only [show (gLM g).index_to_vertex
      = g.index_to_vertex.map (fun p => (p.1, vLM p.2)) from rfl, mapGet_map_val,
    show (gLM g).edges_between = g.edges_between from rfl]
  cases mapGet g.index_to_vertex s <;> cases mapGet g.index_to_vertex t <;> rfl

theorem lm_dg_vertices {V E : Type} [DecidableEq V] [DecidableEq E]
    (g : DirectedGraph.Graph V E) :
    LabeledMultidigraph.vertices (gLM g) = DirectedGraph.vertices g := by
  show (g.index_to_vertex.map (fun p => (p.1, vLM p.2))).map Prod.fst
    = g.index_to_vertex.map Prod.fst
  rw [List.map_map]
  rfl

theorem lm_dg_edges {V E : Type} [DecidableEq V] [DecidableEq E]
    (g : DirectedGraph.Graph V E) :
    LabeledMultidigraph.edges (gLM g) = DirectedGraph.edges g := by
  show (g.index_to_edge.map (fun p => (p.1, eLM p.2))).map Prod.fst
    = g.index_to_edge.map Prod.fst
  rw [List.map_map]
  rfl

/-- Operation alphabet shared by both implementations: the full public API,
carrying the raw payloads. -/
inductive Op (V E : Type) where
  | addV : V → Op V E
  | addE : Nat → E → Nat → Op V E
  | containsV : V → Op V E
  | getV : Nat → Op V E
  | neighbors : Nat → Op V E
  | edgesFrom : Nat → Op V E
  | containsE : Nat → E → Nat → Op V E
  | getE : Nat → Op V E
  | edgesBetween : Nat → Nat → Op V E
  | allVertices : Op V E
  | allEdges : Op V E

namespace DirectedGraph

/-- Observable result of one DirectedGraph operation. -/
inductive Res (V E : Type) where
  | idx : Nat → Res V E
  | optIdx : Option Nat → Res V E
  | vtx : Option (Vertex V) → Res V E
  | edg : Option (Edge E) → Res V E
  | seq : Option (List Nat) → Res V E
  | seqAll : List Nat → Res V E

variable {V E : Type} [DecidableEq V] [DecidableEq E]

/-- One API call against a DirectedGraph state. -/
def stepOp (g : Graph V E) : Op V E → Res V E × Graph V E
  | .addV l =>
    ((Res.idx (add_vertex g ⟨l⟩).1), (add_vertex g ⟨l⟩).2)
  | .addE s l t =>
    ((Res.optIdx (add_edge g ⟨s, l, t⟩).1), (add_edge g ⟨s, l, t⟩).2)
  | .containsV l => (Res.optIdx (contains_vertex g ⟨l⟩), g)
  | .getV i => (Res.vtx (get_vertex g i), g)
  | .neighbors i => (Res.seq (get_neighbors g i), g)
  | .edgesFrom i => (Res.seq (get_edges_from g i), g)
  | .containsE s l t => (Res.optIdx (contains_edge g ⟨s, l, t⟩), g)
  | .getE i => (Res.edg (get_edge g i), g)
  | .edgesBetween s t => (Res.seq (get_edges_between g s t), g)
  | .allVertices => (Res.seqAll (vertices g), g)
  | .allEdges => (Res.seqAll (edges g), g)

/-- Run of a call sequence against a DirectedGraph state, collecting every
observable result and the final state. -/
def runOps : Graph V E → List (Op V E) → List (Res V E) × Graph V E
  | g, [] => ([], g)
  | g, o :: rest =>
    ((stepOp g o).1 :: (runOps (stepOp g o).2 rest).1,
      (runOps (stepOp g o).2 rest).2)

end DirectedGraph

namespace LabeledMultidigraph

/-- Observable result of one LabeledMultidigraph operation. -/
inductive Res (V E : Type) where
  | idx : Nat → Res V E
  | optIdx : Option Nat → Res V E
  | vtx : Option (Vertex V) → Res V E
  | edg : Option (Edge E) → Res V E
  | seq : Option (List Nat) → Res V E
  | seqAll : List Nat → Res V E

variable {V E : Type} [DecidableEq V] [DecidableEq E]

/-- One API call against a LabeledMultidigraph state. -/
def stepOp (g : Graph V E) : Op V E → Res V E × Graph V E
  | .addV l =>
    ((Res.idx (add_vertex g ⟨l⟩).1), (add_vertex g ⟨l⟩).2)
  | .addE s l t =>
    ((Res.optIdx (add_edge g ⟨s, l, t⟩).1), (add_edge g ⟨s, l, t⟩).2)
  | .containsV l => (Res.optIdx (contains_vertex g ⟨l⟩), g)
  | .getV i => (Res.vtx (get_vertex g i), g)
  | .neighbors i => (Res.seq (get_neighbors g i), g)
  | .edgesFrom i => (Res.seq (get_edges_from g i), g)
  | .containsE s l t => (Res.optIdx (contains_edge g ⟨s, l, t⟩), g)
  | .getE i => (Res.edg (get_edge g i), g)
  | .edgesBetween s t => (Res.seq (get_edges_between g s t), g)
  | .allVertices => (Res.seqAll (vertices g), g)
  | .allEdges => (Res.seqAll (edges g), g)

/-- Run of a call sequence against a LabeledMultidigraph state. -/
def runOps : Graph V E → List (Op V E) → List (Res V E) × Graph V E
  | g, [] => ([], g)
  | g, o :: rest =>
    ((stepOp g o).1 :: (runOps (stepOp g o).2 rest).1,
      (runOps (stepOp g o).2 rest).2)

end LabeledMultidigraph

/-- Renaming of a DirectedGraph observable result into the corresponding
LabeledMultidigraph observable result. -/
def resLM {V E : Type} : DirectedGraph.Res V E → LabeledMultidigraph.Res V E
  | .idx i => .idx i
  | .optIdx o => .optIdx o
  | .vtx o => .vtx (o.map vLM)
  | .edg o => .edg (o.map eLM)
  | .seq o => .seq o
  | .seqAll l => .seqAll l

theorem lm_dg_stepOp {V E : Type} [DecidableEq V] [DecidableEq E]
    (g : DirectedGraph.Graph V E) (o : Op V E) :
    LabeledMultidigraph.stepOp (gLM g) o
      = (resLM (DirectedGraph.stepOp g o).1, gLM (DirectedGraph.stepOp g o).2) := by
  cases o with
  | addV l =>
    have h := lm_dg_add_vertex g ⟨l⟩
    simp only [vLM] at h
    simp [LabeledMultidigraph.stepOp, DirectedGraph.stepOp, resLM, h]
  | addE s l t =>
    have h := lm_dg_add_edge g ⟨s, l, t⟩
    simp only [eLM] at h
    simp [LabeledMultidigraph.stepOp, DirectedGraph.stepOp, resLM, h]
  | containsV l =>
    have h := lm_dg_contains_vertex g ⟨l⟩
    simp only [vLM] at h
    simp [LabeledMultidigraph.stepOp, DirectedGraph.stepOp, resLM, h]
  | getV i =>
    simp [LabeledMultidigraph.stepOp, DirectedGraph.stepOp, resLM,
      lm_dg_get_vertex g i]
  | neighbors i =>
    simp [LabeledMultidigraph.stepOp, DirectedGraph.stepOp, resLM,
      lm_dg_get_neighbors g i]
  | edgesFrom i =>
    simp [LabeledMultidigraph.stepOp, DirectedGraph.stepOp, resLM,
      lm_dg_get_edges_from g i]
  | containsE s l t =>
    have h := lm_dg_contains_edge g ⟨s, l, t⟩
    simp only [eLM] at h
    simp [LabeledMultidigraph.stepOp, DirectedGraph.stepOp, resLM, h]
  | getE i =>
    simp [LabeledMultidigraph.stepOp, DirectedGraph.stepOp, resLM,
      lm_dg_get_edge g i]
  | edgesBetween s t =>
    simp [LabeledMultidigraph.stepOp, DirectedGraph.stepOp, resLM,
      lm_dg_get_edges_between g s t]
  | allVertices =>
    simp [LabeledMultidigraph.stepOp, DirectedGraph.stepOp, resLM,
      lm_dg_vertices g]
  | allEdges =>
    simp [LabeledMultidigraph.stepOp, DirectedGraph.stepOp, resLM,
      lm_dg_edges g]

theorem lm_dg_runOps {V E : Type} [DecidableEq V] [DecidableEq E]
    (ops : List (Op V E)) :
    ∀ g : DirectedGraph.Graph V E,
      LabeledMultidigraph.runOps (gLM g) ops
        = ((DirectedGraph.runOps g ops).1.map resLM,
          gLM (DirectedGraph.runOps g ops).2) := by
  induction ops with
  | nil =>
    intro g
    simp [LabeledMultidigraph.runOps, DirectedGraph.runOps]
  | cons o rest ih =>
    intro g
    simp only [LabeledMultidigraph.runOps, DirectedGraph.runOps, lm_dg_stepOp,
      ih ((DirectedGraph.stepOp g o).2)]
    simp

/-- C9: the two implementations are behaviorally equivalent: running any
sequence of corresponding operations from the empty graph gives, call by
call, the same observable results up to the data/label field renaming, and
leaves the two containers in corresponding states. -/
theorem claim_C9_behavioral_equivalence {V E : Type} [DecidableEq V]
    [DecidableEq E] (ops : List (Op V E)) :
    LabeledMultidigraph.runOps LabeledMultidigraph.new ops
      = ((DirectedGraph.runOps DirectedGraph.new ops).1.map resLM,
        gLM (DirectedGraph.runOps DirectedGraph.new ops).2) := by
  have hnew : (LabeledMultidigraph.new : LabeledMultidigraph.Graph V E)
      = gLM DirectedGraph.new := rfl
  rw [hnew, lm_dg_runOps]

namespace LabeledMultidigraph

/-- Concrete build stage: the empty graph. -/
def gW0 : Graph Nat Nat := new

/-- Concrete build stage: one vertex with label 0. -/
def gW1 : Graph Nat Nat := (add_vertex gW0 ⟨0⟩).2

/-- Concrete build stage: vertices 0 and 1. -/
def gW2 : Graph Nat Nat := (add_vertex gW1 ⟨1⟩).2

/-- Concrete build stage: vertices 0 and 1 and edge (0, 5, 1). -/
def gW3 : Graph Nat Nat := (add_edge gW2 ⟨0, 5, 1⟩).2

/-- Concrete witness graph: vertices 0 and 1 and the two parallel edges
(0, 5, 1) and (0, 6, 1). -/
def gW : Graph Nat Nat := (add_edge gW3 ⟨0, 6, 1⟩).2

theorem gW2_reachable : Reachable gW2 :=
  Reachable.add_vertex gW1 ⟨1⟩ (Reachable.add_vertex gW0 ⟨0⟩ Reachable.new)

theorem gW_reachable : Reachable gW :=
  Reachable.add_edge gW3 ⟨0, 6, 1⟩ (Reachable.add_edge gW2 ⟨0, 5, 1⟩ gW2_reachable)

/-- Witness instantiating C1 on a concrete reachable graph. -/
theorem claim_C1_witness :
    (0 ∈ edgesFromSet gW 0 ↔ ∃ ed, get_edge gW 0 = some ed ∧ ed.source = 0) ∧
    (0 ∈ edgesBetweenSet gW 0 1 ↔
      ∃ ed, get_edge gW 0 = some ed ∧ ed.source = 0 ∧ ed.target = 1) :=
  claim_C1_adjacency_consistency gW 0 0 1 0 gW_reachable

/-- Witness instantiating C2 on a concrete graph holding the entities. -/
theorem claim_C2_witness :
    add_vertex gW ⟨0⟩ = (0, gW) ∧ add_edge gW ⟨0, 5, 1⟩ = (some 0, gW) :=
  claim_C2_dedup_idempotent gW ⟨0⟩ ⟨0, 5, 1⟩ 0 0 (by decide) (by decide)
    (by decide) (by decide)

/-- Witness instantiating C3 on a concrete reachable graph. -/
theorem claim_C3_witness :
    ((vertices gW).Nodup ∧ ∀ i, i ∈ vertices gW ↔ i < gW.vertex_to_index.length) ∧
    ((edges gW).Nodup ∧ ∀ i, i ∈ edges gW ↔ i < gW.edge_to_index.length) ∧
    (contains_vertex gW ⟨2⟩ = none →
      (add_vertex gW ⟨2⟩).1 = gW.vertex_to_index.length) ∧
    (∀ i v0, mapGet gW.index_to_vertex i = some v0 →
      mapGet ((add_vertex gW ⟨2⟩).2).index_to_vertex i = some v0) ∧
    (∀ i ed, mapGet gW.index_to_edge i = some ed →
      mapGet ((add_edge gW ⟨0, 7, 1⟩).2).index_to_edge i = some ed) :=
  claim_C3_index_density gW gW_reachable ⟨2⟩ ⟨0, 7, 1⟩

/-- Witness instantiating C4 on a concrete reachable graph. -/
theorem claim_C4_witness :
    ((get_vertex gW 0).isSome ↔ 0 < gW.vertex_to_index.length) ∧
    ((get_edge gW 0).isSome ↔ 0 < gW.edge_to_index.length) ∧
    ((get_neighbors gW 0).isSome ↔ 0 < gW.vertex_to_index.length) ∧
    ((get_edges_from gW 0).isSome ↔ 0 < gW.vertex_to_index.length) ∧
    ((get_edges_between gW 0 1).isSome ↔
      0 < gW.vertex_to_index.length ∧ 1 < gW.vertex_to_index.length) ∧
    (((add_edge gW ⟨0, 9, 1⟩).1).isSome ↔
      (0 : Nat) < gW.vertex_to_index.length ∧
      (1 : Nat) < gW.vertex_to_index.length) :=
  claim_C4_fatal_on_bad_index gW gW_reachable 0 0 1 ⟨0, 9, 1⟩

/-- Witness instantiating C5 on a concrete reachable graph. -/
theorem claim_C5_witness :
    contains_vertex gW2 ⟨0⟩ = some 0 ∧ get_vertex gW2 0 = some ⟨0⟩ ∧
    (∀ v2 : Vertex Nat, contains_vertex ((add_vertex gW2 v2).2) ⟨0⟩ = some 0) ∧
    (∀ e2 : Edge Nat, contains_vertex ((add_edge gW2 e2).2) ⟨0⟩ = some 0) :=
  claim_C5_round_trip gW2 gW2_reachable 0 0 gW2 (by decide)

/-- Witness instantiating C6 on a concrete reachable graph and an edge whose
source index was never issued. -/
theorem claim_C6_witness :
    ((add_edge gW ⟨5, 9, 0⟩).1 = none → (add_edge gW ⟨5, 9, 0⟩).2 = gW) ∧
    Consistent (add_vertex gW ⟨3⟩).2 ∧ Consistent (add_edge gW ⟨5, 9, 0⟩).2 :=
  claim_C6_atomicity gW gW_reachable ⟨3⟩ ⟨5, 9, 0⟩

/-- Witness instantiating C7 on a concrete reachable graph. -/
theorem claim_C7_witness :
    (contains_vertex gW ⟨0⟩ = some 0 ↔ get_vertex gW 0 = some ⟨0⟩) ∧
    (contains_edge gW ⟨0, 5, 1⟩ = some 0 ↔ get_edge gW 0 = some ⟨0, 5, 1⟩) ∧
    (contains_vertex gW ⟨0⟩ = none ↔ ∀ k, ¬get_vertex gW k = some ⟨0⟩) ∧
    (contains_edge gW ⟨0, 5, 1⟩ = none ↔ ∀ k, ¬get_edge gW k = some ⟨0, 5, 1⟩) :=
  claim_C7_contains_lookup gW gW_reachable ⟨0⟩ ⟨0, 5, 1⟩ 0 0

/-- Witness instantiating C8 at vertex 1, which has no outgoing edges, and the
pair (1, 0), which no edge connects. -/
theorem claim_C8_witness :
    ((∀ j ed, get_edge gW j = some ed → ¬ed.source = 1) →
      get_edges_from gW 1 = some [] ∧ get_neighbors gW 1 = some []) ∧
    ((∀ j ed, get_edge gW j = some ed → ¬(ed.source = 1 ∧ ed.target = 0)) →
      get_edges_between gW 1 0 = some []) :=
  claim_C8_empty_result gW gW_reachable 1 0 (by decide) (by decide)

/-- Witness instantiating C10 at vertex 0, whose two parallel edges both
reach vertex 1. -/
theorem claim_C10_witness :
    ∃ l, get_neighbors gW 0 = some l ∧
      l.length = (edgesFromSet gW 0).length ∧
      ∀ w, l.count w =
        ((List.range gW.edge_to_index.length).filter
          (fun j =>
            match get_edge gW j with
            | some ed => decide (ed.source = 0 ∧ ed.target = w)
            | none => false)).length :=
  claim_C10_neighbors_multiset gW gW_reachable 0 (by decide)

end LabeledMultidigraph
